import Mathlib

/-!
Verification of the Challenge Participation & Real-Time Notification Dispatch
subsystem of the StakeFit repository (Backend router in `src/Backend/config/db.js`).

The Express route handlers are shallowly embedded as pure Lean functions over an
explicit database state.  Mongo documents become Lean structures; `findById`
becomes a first-match search over the stored list; `save` writes the modified
document back by id; `insertMany` appends a batch, assigning fresh server ids.
The create handler additionally returns the list of socket pushes it emits and
an event trace (persist events then push events) reflecting the order in which
the handler performs its effects: `Notification.insertMany` completes before the
`forEach` loop that emits `new_notification` over sockets.
-/

namespace StakeFit

/-- A participant sub-record of a community challenge document
(fields written by the accept/complete handlers). -/
structure Participant where
  userId : String
  accepted : Bool
  stakeSubmitted : Bool
  completed : Bool
  completedAt : Option Nat
deriving Repr, DecidableEq

/-- The stake definition; the create handler reads `stake.amount`. -/
structure Stake where
  amount : Nat
deriving Repr, DecidableEq

/-- A community challenge document (`communityChallenge` model). -/
structure Challenge where
  id : Nat
  communityId : String
  name : String
  description : String
  exercises : List String
  stake : Stake
  participants : List Participant
deriving Repr, DecidableEq

/-- A community member entry; the create handler reads `member.userId`. -/
structure Member where
  userId : String
deriving Repr, DecidableEq

/-- A community document with its member list. -/
structure Community where
  id : String
  members : List Member
deriving Repr, DecidableEq

/-- The structured `data` payload of a challenge-invite notification. -/
structure NotificationData where
  challengeId : Nat
  communityId : String
  stakeAmount : Nat
  challengeName : String
  challengeDescription : String
deriving Repr, DecidableEq

/-- A persisted notification record (with its server-assigned id). -/
structure Notification where
  id : Nat
  userId : String
  type : String
  title : String
  description : String
  data : NotificationData
  read : Bool
  createdAt : Nat
deriving Repr, DecidableEq

/-- One element of the `notifications` array the create handler builds
before `Notification.insertMany` assigns ids. -/
structure NotifDraft where
  userId : String
  type : String
  title : String
  description : String
  data : NotificationData
  read : Bool
  createdAt : Nat
deriving Repr, DecidableEq

/-- The durable store: challenge documents, community documents,
notification records, and the next fresh server id. -/
structure DB where
  challenges : List Challenge
  communities : List Community
  notifications : List Notification
  nextId : Nat
deriving Repr, DecidableEq

/-- `CommunityChallenge.findById`: first stored challenge with the given id. -/
def findChallengeById (db : DB) (challengeId : Nat) : Option Challenge :=
  db.challenges.find? (fun c => c.id == challengeId)

/-- `Community.findById`: first stored community with the given id. -/
def findCommunityById (db : DB) (communityId : String) : Option Community :=
  db.communities.find? (fun c => c.id == communityId)

/-- `challenge.save()` after mutating a fetched document: write the modified
document back over every stored challenge carrying its id. -/
def saveChallenge (db : DB) (challenge : Challenge) : DB :=
  { db with challenges :=
      db.challenges.map (fun c => if c.id == challenge.id then challenge else c) }

/-- Assign consecutive server ids to a batch of drafts, as
`Notification.insertMany` does when materializing the inserted records. -/
def assignIds : Nat → List NotifDraft → List Notification
  | _, [] => []
  | nid, d :: rest =>
    { id := nid, userId := d.userId, type := d.type, title := d.title,
      description := d.description, data := d.data, read := d.read,
      createdAt := d.createdAt } :: assignIds (nid + 1) rest

/-- `Notification.insertMany`: persist the whole batch in one bulk write and
return the saved records (with their server-assigned ids). -/
def insertMany (db : DB) (drafts : List NotifDraft) : DB × List Notification :=
  let saved := assignIds db.nextId drafts
  ({ db with notifications := db.notifications ++ saved,
             nextId := db.nextId + drafts.length }, saved)

/-- `userSockets[userId]`: look up the socket id registered for a user. -/
def lookupSocket : List (String × String) → String → Option String
  | [], _ => none
  | (u, s) :: rest, userId => if u == userId then some s else lookupSocket rest userId

/-- One effect of the create handler, in the order the handler performs them. -/
inductive Event where
  | persistRec (n : Notification)
  | pushRec (socketId : String) (n : Notification)
deriving Repr, DecidableEq

/-- Result of the `POST /create` handler: HTTP status, resulting store, the
`new_notification` socket pushes emitted, and the effect trace. -/
structure CreateResult where
  status : Nat
  db : DB
  pushes : List (String × Notification)
  trace : List Event
  body : Option Challenge
deriving Repr, DecidableEq

/-- The notification draft the create handler builds for one member id. -/
def mkDraft (now : Nat) (challengeId : Nat) (communityId name description : String)
    (stake : Stake) (userId : String) : NotifDraft :=
  { userId := userId,
    type := "challenge_invite",
    title := "New Challenge: " ++ name,
    description := "You\x27ve been invited to join \x22" ++ name ++ "\x22 challenge",
    data := { challengeId := challengeId, communityId := communityId,
              stakeAmount := stake.amount, challengeName := name,
              challengeDescription := description },
    read := false,
    createdAt := now }

/-- `POST /create` (router.post /create in `src/Backend/config/db.js`):
build and save the challenge with an empty roster, fetch the community
(404 if absent), build one notification per member, persist the batch via
`insertMany`, then — only when both `io` and `userSockets` were set by router
initialization — emit `new_notification` to each saved record's registered
socket.  `ioSet` models the truthiness of `io`, `userSockets = none` models an
unset registry reference. -/
def createChallenge (db : DB) (now : Nat) (ioSet : Bool)
    (userSockets : Option (List (String × String)))
    (communityId name description : String) (exercises : List String)
    (stake : Stake) : CreateResult :=
  let challenge : Challenge :=
    { id := db.nextId, communityId := communityId, name := name,
      description := description, exercises := exercises, stake := stake,
      participants := [] }
  let db1 : DB :=
    { db with challenges := db.challenges ++ [challenge], nextId := db.nextId + 1 }
  match findCommunityById db1 communityId with
  | none => { status := 404, db := db1, pushes := [], trace := [], body := none }
  | some community =>
    let memberIds := community.members.map (fun m => m.userId)
    let drafts := memberIds.map
      (mkDraft now challenge.id communityId name description stake)
    let inserted := insertMany db1 drafts
    let pushes :=
      if ioSet && userSockets.isSome then
        inserted.2.filterMap (fun n =>
          match lookupSocket (userSockets.getD []) n.userId with
          | some socketId => some (socketId, n)
          | none => none)
      else []
    { status := 200, db := inserted.1, pushes := pushes,
      trace := inserted.2.map Event.persistRec ++
               pushes.map (fun p => Event.pushRec p.1 p.2),
      body := some challenge }

/-- The challenge document the create handler builds and saves. -/
def newChallenge (db : DB) (communityId name description : String)
    (exercises : List String) (stake : Stake) : Challenge :=
  { id := db.nextId, communityId := communityId, name := name,
    description := description, exercises := exercises, stake := stake,
    participants := [] }

/-- The notification records a successful create persists via `insertMany`. -/
def createdRecords (db : DB) (now : Nat) (communityId name description : String)
    (stake : Stake) (community : Community) : List Notification :=
  assignIds (db.nextId + 1)
    ((community.members.map (fun m => m.userId)).map
      (mkDraft now db.nextId communityId name description stake))

/-- The `new_notification` pushes a successful create emits over sockets. -/
def createdPushes (ioSet : Bool) (userSockets : Option (List (String × String)))
    (saved : List Notification) : List (String × Notification) :=
  if ioSet && userSockets.isSome then
    saved.filterMap (fun n =>
      match lookupSocket (userSockets.getD []) n.userId with
      | some socketId => some (socketId, n)
      | none => none)
  else []

/-- Result of a join/accept/complete handler: HTTP status and resulting store. -/
structure OpResult where
  status : Nat
  db : DB
deriving Repr, DecidableEq

/-- `POST /join/:challengeId`: 404 when the challenge id does not resolve,
400 when the user already has a roster entry, otherwise append a fresh
participant and save.
Modelled from the spec: the `communityChallenge` schema
(`Model/communityChallenge.js`) is not under src/, so the default participant
fields follow the spec's Join transition — append
Participant with accepted:false, stakeSubmitted:false, completed:false. -/
def joinChallenge (db : DB) (challengeId : Nat) (userId : String) : OpResult :=
  match findChallengeById db challengeId with
  | none => { status := 404, db := db }
  | some challenge =>
    match challenge.participants.find? (fun p => p.userId == userId) with
    | some _ => { status := 400, db := db }
    | none =>
      let challenge2 :=
        { challenge with participants := challenge.participants ++
            [{ userId := userId, accepted := false, stakeSubmitted := false,
               completed := false, completedAt := none }] }
      { status := 200, db := saveChallenge db challenge2 }

/-- Mutate the first roster entry with the given user id, as assignment through
`participants.find(...)` does on the fetched document. -/
def updateFirstParticipant (ps : List Participant) (userId : String)
    (f : Participant → Participant) : List Participant :=
  match ps with
  | [] => []
  | p :: rest =>
    if p.userId == userId then f p :: rest
    else p :: updateFirstParticipant rest userId f

/-- `POST /accept/:challengeId`: the handler does not null-check the fetched
challenge — when the id does not resolve, reading `.participants` of `null`
throws and the catch block answers 500.  Otherwise 404 when the user has no
roster entry, else set `accepted := true`, `stakeSubmitted := true` on that
entry and save. -/
def acceptChallenge (db : DB) (challengeId : Nat) (userId : String) : OpResult :=
  match findChallengeById db challengeId with
  | none => { status := 500, db := db }
  | some challenge =>
    match challenge.participants.find? (fun p => p.userId == userId) with
    | none => { status := 404, db := db }
    | some _ =>
      let ps2 := updateFirstParticipant challenge.participants userId
        (fun p => { p with accepted := true, stakeSubmitted := true })
      let challenge2 := { challenge with participants := ps2 }
      { status := 200, db := saveChallenge db challenge2 }

/-- `POST /complete/:challengeId`: same shape as accept (and the same missing
null check, hence 500 on an unresolved id); on success set
`completed := true`, `completedAt := now` on the entry and save. -/
def completeChallenge (db : DB) (now : Nat) (challengeId : Nat)
    (userId : String) : OpResult :=
  match findChallengeById db challengeId with
  | none => { status := 500, db := db }
  | some challenge =>
    match challenge.participants.find? (fun p => p.userId == userId) with
    | none => { status := 404, db := db }
    | some _ =>
      let ps2 := updateFirstParticipant challenge.participants userId
        (fun p => { p with completed := true, completedAt := some now })
      let challenge2 := { challenge with participants := ps2 }
      { status := 200, db := saveChallenge db challenge2 }

/-! ### Concrete sample data used by witnesses and counterexamples -/

/-- An empty store. -/
def dbEmpty : DB := { challenges := [], communities := [], notifications := [], nextId := 1 }

/-- A two-member community. -/
def commW : Community := { id := "c1", members := [⟨"u1"⟩, ⟨"u2"⟩] }

/-- A store holding only `commW`. -/
def dbW : DB := { challenges := [], communities := [commW], notifications := [], nextId := 7 }

/-- A socket registry where only u2 is connected. -/
def regW : List (String × String) := [("u2", "s2")]

/-- A fresh (just-joined) participant record for u2. -/
def pW : Participant :=
  { userId := "u2", accepted := false, stakeSubmitted := false,
    completed := false, completedAt := none }

/-- An already-accepted participant record for u1. -/
def p1W : Participant :=
  { userId := "u1", accepted := true, stakeSubmitted := true,
    completed := false, completedAt := none }

/-- A fresh participant record for u3. -/
def p3W : Participant :=
  { userId := "u3", accepted := false, stakeSubmitted := false,
    completed := false, completedAt := none }

/-- A challenge whose roster holds u1, u2 and u3 (u2 still fresh). -/
def chalW : Challenge :=
  { id := 2, communityId := "c1", name := "n", description := "d",
    exercises := ["pushups"], stake := ⟨10⟩,
    participants := [p1W, pW, p3W] }

/-- An unrelated challenge stored next to `chalW`. -/
def chalOther : Challenge :=
  { id := 1, communityId := "c9", name := "o", description := "od",
    exercises := [], stake := ⟨3⟩, participants := [] }

/-- A store holding `chalOther` and `chalW`. -/
def dbJ : DB :=
  { challenges := [chalOther, chalW], communities := [], notifications := [], nextId := 3 }

/-! ### Helper lemmas on list search and update -/

/-- `find?` returns the marked element of a split list when nothing before it
satisfies the predicate. -/
theorem find?_eq_some_of_split {α : Type} (p : α → Bool) (pre post : List α) (x : α)
    (hpre : ∀ y ∈ pre, p y = false) (hx : p x = true) :
    (pre ++ x :: post).find? p = some x := by
  induction pre with
  | nil => simpa using List.find?_cons_of_pos post hx
  | cons a t ih =>
    have ha : ¬ p a = true := by simp [hpre a (by simp)]
    rw [List.cons_append, List.find?_cons_of_neg _ ha]
    exact ih (fun y hy => hpre y (by simp [hy]))

/-- `find?` succeeds as soon as some member satisfies the predicate. -/
theorem find?_isSome_of_mem {α : Type} (p : α → Bool) (l : List α) (x : α)
    (hx : x ∈ l) (hpx : p x = true) : ∃ y, l.find? p = some y := by
  induction l with
  | nil => cases hx
  | cons a t ih =>
    by_cases ha : p a = true
    · exact ⟨a, List.find?_cons_of_pos t ha⟩
    · have ha' : ¬ p a := by simpa using ha
      rcases List.mem_cons.mp hx with rfl | hxt
      · exact absurd hpx ha'
      · obtain ⟨y, hy⟩ := ih hxt
        exact ⟨y, by simpa [List.find?_cons_of_neg t ha'] using hy⟩

/-- Searching a store whose challenge list or id counter was updated still
searches the same communities. -/
theorem findCommunityById_update (db : DB) (cs : List Challenge) (k : Nat)
    (cid : String) :
    findCommunityById { db with challenges := cs, nextId := k } cid =
      findCommunityById db cid := rfl

/-- Writing a document back leaves every challenge with a different id as it
was. -/
theorem map_keep_of_ne (l : List Challenge) (b : Challenge)
    (h : ∀ c ∈ l, c.id ≠ b.id) :
    l.map (fun c => if c.id == b.id then b else c) = l := by
  induction l with
  | nil => rfl
  | cons a t ih =>
    have ha : (a.id == b.id) = false := by simpa using h a (by simp)
    have ht := ih (fun c hc => h c (by simp [hc]))
    rw [List.map_cons, ht, ha]
    rfl

/-- Writing a document back replaces exactly the stored challenge carrying its
id when ids are unique around it. -/
theorem map_replace_split (pre post : List Challenge) (a b : Challenge)
    (hpre : ∀ c ∈ pre, c.id ≠ a.id) (hpost : ∀ c ∈ post, c.id ≠ a.id)
    (hid : b.id = a.id) :
    (pre ++ a :: post).map (fun c => if c.id == b.id then b else c) =
      pre ++ b :: post := by
  have hpre' : ∀ c ∈ pre, c.id ≠ b.id := fun c hc => by
    rw [hid]; exact hpre c hc
  have hpost' : ∀ c ∈ post, c.id ≠ b.id := fun c hc => by
    rw [hid]; exact hpost c hc
  have ha : (a.id == b.id) = true := beq_iff_eq.mpr hid.symm
  rw [List.map_append, List.map_cons,
    map_keep_of_ne pre b hpre', map_keep_of_ne post b hpost', ha]
  rfl

/-- Assignment through `participants.find(...)` rewrites exactly the first
matching roster entry. -/
theorem updateFirstParticipant_split (ppre ppost : List Participant)
    (x : Participant) (uid : String) (f : Participant → Participant)
    (hpre : ∀ q ∈ ppre, q.userId ≠ uid) (hx : x.userId = uid) :
    updateFirstParticipant (ppre ++ x :: ppost) uid f = ppre ++ f x :: ppost := by
  induction ppre with
  | nil => simp [updateFirstParticipant, hx]
  | cons a t ih =>
    have ha : a.userId ≠ uid := hpre a (by simp)
    have ht := ih (fun q hq => hpre q (by simp [hq]))
    simp [updateFirstParticipant, ha, ht]

/-- `findById` returns the marked challenge of a split store when the
challenges before it carry different ids. -/
theorem findChallengeById_split (db : DB) (pre post : List Challenge)
    (ch : Challenge) (cid : Nat) (hdb : db.challenges = pre ++ ch :: post)
    (hpre : ∀ c ∈ pre, c.id ≠ cid) (hch : ch.id = cid) :
    findChallengeById db cid = some ch := by
  unfold findChallengeById
  rw [hdb]
  exact find?_eq_some_of_split _ pre post ch
    (fun y hy => by simp [hpre y hy]) (by simp [hch])

/-- Full characterization of a successful accept on a split store. -/
theorem acceptChallenge_split (db : DB) (cid : Nat) (uid : String)
    (pre post : List Challenge) (ch : Challenge)
    (ppre ppost : List Participant) (p : Participant)
    (hdb : db.challenges = pre ++ ch :: post)
    (hpreid : ∀ c ∈ pre, c.id ≠ cid) (hpostid : ∀ c ∈ post, c.id ≠ cid)
    (hch : ch.id = cid) (hps : ch.participants = ppre ++ p :: ppost)
    (hppre : ∀ q ∈ ppre, q.userId ≠ uid) (hp : p.userId = uid) :
    acceptChallenge db cid uid =
      { status := 200,
        db := { db with challenges := pre ++
          ({ ch with participants := ppre ++
              ({ p with accepted := true, stakeSubmitted := true }) :: ppost }) ::
          post } } := by
  have hfind := findChallengeById_split db pre post ch cid hdb hpreid hch
  have hfp : ch.participants.find? (fun q => q.userId == uid) = some p := by
    rw [hps]
    exact find?_eq_some_of_split _ ppre ppost p
      (fun y hy => by simp [hppre y hy]) (by simp [hp])
  have hupd : updateFirstParticipant ch.participants uid
      (fun q => { q with accepted := true, stakeSubmitted := true }) =
      ppre ++ ({ p with accepted := true, stakeSubmitted := true }) :: ppost := by
    rw [hps]
    exact updateFirstParticipant_split ppre ppost p uid _ hppre hp
  have hpre' : ∀ c ∈ pre, c.id ≠ ch.id := fun c hc => by
    rw [hch]; exact hpreid c hc
  have hpost' : ∀ c ∈ post, c.id ≠ ch.id := fun c hc => by
    rw [hch]; exact hpostid c hc
  simp only [acceptChallenge, hfind, hfp, hupd, saveChallenge]
  rw [hdb, map_replace_split pre post ch
    ({ ch with participants := ppre ++
        ({ p with accepted := true, stakeSubmitted := true }) :: ppost })
    hpre' hpost' rfl]

/-- Full characterization of a successful complete on a split store. -/
theorem completeChallenge_split (db : DB) (now : Nat) (cid : Nat) (uid : String)
    (pre post : List Challenge) (ch : Challenge)
    (ppre ppost : List Participant) (p : Participant)
    (hdb : db.challenges = pre ++ ch :: post)
    (hpreid : ∀ c ∈ pre, c.id ≠ cid) (hpostid : ∀ c ∈ post, c.id ≠ cid)
    (hch : ch.id = cid) (hps : ch.participants = ppre ++ p :: ppost)
    (hppre : ∀ q ∈ ppre, q.userId ≠ uid) (hp : p.userId = uid) :
    completeChallenge db now cid uid =
      { status := 200,
        db := { db with challenges := pre ++
          ({ ch with participants := ppre ++
              ({ p with completed := true, completedAt := some now }) :: ppost }) ::
          post } } := by
  have hfind := findChallengeById_split db pre post ch cid hdb hpreid hch
  have hfp : ch.participants.find? (fun q => q.userId == uid) = some p := by
    rw [hps]
    exact find?_eq_some_of_split _ ppre ppost p
      (fun y hy => by simp [hppre y hy]) (by simp [hp])
  have hupd : updateFirstParticipant ch.participants uid
      (fun q => { q with completed := true, completedAt := some now }) =
      ppre ++ ({ p with completed := true, completedAt := some now }) :: ppost := by
    rw [hps]
    exact updateFirstParticipant_split ppre ppost p uid _ hppre hp
  have hpre' : ∀ c ∈ pre, c.id ≠ ch.id := fun c hc => by
    rw [hch]; exact hpreid c hc
  have hpost' : ∀ c ∈ post, c.id ≠ ch.id := fun c hc => by
    rw [hch]; exact hpostid c hc
  simp only [completeChallenge, hfind, hfp, hupd, saveChallenge]
  rw [hdb, map_replace_split pre post ch
    ({ ch with participants := ppre ++
        ({ p with completed := true, completedAt := some now }) :: ppost })
    hpre' hpost' rfl]

/-! ### C4, C5, C6: error handling of join/accept/complete -/

/-- C4 counterexample: on a challenge id that does not resolve, `accept`
answers HTTP 500 (null dereference caught by the handler), not the claimed
404. -/
theorem accept_missing_challenge_counterexample :
    (acceptChallenge dbEmpty 99 "u1").status = 500 ∧
    ¬ (acceptChallenge dbEmpty 99 "u1").status = 404 := by decide

/-- C4 (amended): when the challenge id does not resolve, `join` fails with
404, while `accept` and `complete` fail with 500 (their handlers dereference
the null lookup result and the catch block answers 500); in all three cases
the store is left unchanged. -/
theorem missing_challenge_no_mutation (db : DB) (now : Nat) (cid : Nat)
    (uid : String) (habs : findChallengeById db cid = none) :
    joinChallenge db cid uid = { status := 404, db := db } ∧
    acceptChallenge db cid uid = { status := 500, db := db } ∧
    completeChallenge db now cid uid = { status := 500, db := db } := by
  simp [joinChallenge, acceptChallenge, completeChallenge, habs]

/-- C4 amended-claim witness at a concrete store. -/
theorem missing_challenge_no_mutation_witness :
    findChallengeById dbEmpty 99 = none ∧
    (joinChallenge dbEmpty 99 "u1" = { status := 404, db := dbEmpty } ∧
     acceptChallenge dbEmpty 99 "u1" = { status := 500, db := dbEmpty } ∧
     completeChallenge dbEmpty 5 99 "u1" = { status := 500, db := dbEmpty }) :=
  ⟨by decide, missing_challenge_no_mutation dbEmpty 5 99 "u1" (by decide)⟩

/-- C5: `join` by a user who already has a roster entry answers HTTP 400 and
leaves the store — hence the roster — exactly as it was. -/
theorem join_duplicate_conflict (db : DB) (cid : Nat) (uid : String)
    (challenge : Challenge) (q : Participant)
    (hfind : findChallengeById db cid = some challenge)
    (hq : q ∈ challenge.participants) (huid : q.userId = uid) :
    joinChallenge db cid uid = { status := 400, db := db } := by
  obtain ⟨y, hy⟩ := find?_isSome_of_mem (fun p => p.userId == uid)
    challenge.participants q hq (by simp [huid])
  simp only [joinChallenge, hfind, hy]

/-- C5 witness: joining u2 again on `chalW` answers 400 and keeps the store. -/
theorem join_duplicate_conflict_witness :
    findChallengeById dbJ 2 = some chalW ∧ pW ∈ chalW.participants ∧
    pW.userId = "u2" ∧ joinChallenge dbJ 2 "u2" = { status := 400, db := dbJ } :=
  ⟨by decide, by decide, by decide,
    join_duplicate_conflict dbJ 2 "u2" chalW pW (by decide) (by decide) (by decide)⟩

/-- C6: `accept` and `complete` by a user with no roster entry on an existing
challenge answer HTTP 404 and mutate nothing. -/
theorem non_participant_not_found (db : DB) (now : Nat) (cid : Nat) (uid : String)
    (challenge : Challenge)
    (hfind : findChallengeById db cid = some challenge)
    (habs : ∀ q ∈ challenge.participants, q.userId ≠ uid) :
    acceptChallenge db cid uid = { status := 404, db := db } ∧
    completeChallenge db now cid uid = { status := 404, db := db } := by
  have hn : challenge.participants.find? (fun p => p.userId == uid) = none := by
    apply List.find?_eq_none.mpr
    intro q hq
    simp [habs q hq]
  simp [acceptChallenge, completeChallenge, hfind, hn]

/-- C6 witness: u9 is not on `chalW`'s roster; accept and complete answer 404
and keep the store. -/
theorem non_participant_not_found_witness :
    findChallengeById dbJ 2 = some chalW ∧
    (∀ q ∈ chalW.participants, q.userId ≠ "u9") ∧
    (acceptChallenge dbJ 2 "u9" = { status := 404, db := dbJ } ∧
     completeChallenge dbJ 5 2 "u9" = { status := 404, db := dbJ }) :=
  ⟨by decide, by decide,
    non_participant_not_found dbJ 5 2 "u9" chalW (by decide) (by decide)⟩

/-! ### C7: frame effect of accept and complete; C9: accept idempotence -/

/-- C7: on an existing challenge (stored among others with distinct ids) and
an existing participant, `accept` sets exactly that participant's
`accepted := true` and `stakeSubmitted := true`, and `complete` sets exactly
that participant's `completed := true` and `completedAt := now`; every other
roster entry, every other field of the challenge (id, communityId, name,
description, exercises, stake) and every other stored document is unchanged. -/
theorem accept_complete_single_participant_frame (db : DB) (now : Nat)
    (cid : Nat) (uid : String) (pre post : List Challenge) (ch : Challenge)
    (ppre ppost : List Participant) (p : Participant)
    (hdb : db.challenges = pre ++ ch :: post)
    (hpreid : ∀ c ∈ pre, c.id ≠ cid) (hpostid : ∀ c ∈ post, c.id ≠ cid)
    (hch : ch.id = cid) (hps : ch.participants = ppre ++ p :: ppost)
    (hppre : ∀ q ∈ ppre, q.userId ≠ uid) (hp : p.userId = uid) :
    acceptChallenge db cid uid =
      { status := 200,
        db := { db with challenges := pre ++
          ({ ch with participants := ppre ++
              ({ p with accepted := true, stakeSubmitted := true }) :: ppost }) ::
          post } } ∧
    completeChallenge db now cid uid =
      { status := 200,
        db := { db with challenges := pre ++
          ({ ch with participants := ppre ++
              ({ p with completed := true, completedAt := some now }) :: ppost }) ::
          post } } :=
  ⟨acceptChallenge_split db cid uid pre post ch ppre ppost p
      hdb hpreid hpostid hch hps hppre hp,
   completeChallenge_split db now cid uid pre post ch ppre ppost p
      hdb hpreid hpostid hch hps hppre hp⟩

/-- C7 witness: accepting and completing u2 on `chalW` inside `dbJ` rewrites
only u2's entry. -/
theorem accept_complete_single_participant_frame_witness :
    dbJ.challenges = [chalOther] ++ chalW :: [] ∧
    (∀ c ∈ [chalOther], c.id ≠ 2) ∧
    (∀ c ∈ ([] : List Challenge), c.id ≠ 2) ∧
    chalW.id = 2 ∧
    chalW.participants = [p1W] ++ pW :: [p3W] ∧
    (∀ q ∈ [p1W], q.userId ≠ "u2") ∧
    pW.userId = "u2" ∧
    (acceptChallenge dbJ 2 "u2" =
      { status := 200,
        db := { dbJ with challenges := [chalOther] ++
          ({ chalW with participants := [p1W] ++
              ({ pW with accepted := true, stakeSubmitted := true }) :: [p3W] }) ::
          [] } } ∧
     completeChallenge dbJ 44 2 "u2" =
      { status := 200,
        db := { dbJ with challenges := [chalOther] ++
          ({ chalW with participants := [p1W] ++
              ({ pW with completed := true, completedAt := some 44 }) :: [p3W] }) ::
          [] } }) :=
  ⟨by decide, by decide, by decide, by decide, by decide, by decide, by decide,
   accept_complete_single_participant_frame dbJ 44 2 "u2" [chalOther] []
     chalW [p1W] [p3W] pW (by decide) (by decide) (by decide) (by decide)
     (by decide) (by decide) (by decide)⟩

/-- C9: accept is idempotent — the first call succeeds with 200, and a second
accept on the resulting store succeeds again with 200 (no conflict guard) and
returns a store identical to the one after the first call. -/
theorem accept_idempotent (db : DB) (cid : Nat) (uid : String)
    (pre post : List Challenge) (ch : Challenge)
    (ppre ppost : List Participant) (p : Participant)
    (hdb : db.challenges = pre ++ ch :: post)
    (hpreid : ∀ c ∈ pre, c.id ≠ cid) (hpostid : ∀ c ∈ post, c.id ≠ cid)
    (hch : ch.id = cid) (hps : ch.participants = ppre ++ p :: ppost)
    (hppre : ∀ q ∈ ppre, q.userId ≠ uid) (hp : p.userId = uid) :
    (acceptChallenge db cid uid).status = 200 ∧
    acceptChallenge (acceptChallenge db cid uid).db cid uid =
      { status := 200, db := (acceptChallenge db cid uid).db } := by
  have h1 := acceptChallenge_split db cid uid pre post ch ppre ppost p
    hdb hpreid hpostid hch hps hppre hp
  have h2 := acceptChallenge_split
    { db with challenges := pre ++
        ({ ch with participants := ppre ++
            ({ p with accepted := true, stakeSubmitted := true }) :: ppost }) ::
        post }
    cid uid pre post
    ({ ch with participants := ppre ++
        ({ p with accepted := true, stakeSubmitted := true }) :: ppost })
    ppre ppost ({ p with accepted := true, stakeSubmitted := true })
    rfl hpreid hpostid hch rfl hppre hp
  rw [h1]
  exact ⟨rfl, h2.trans rfl⟩

/-- C9 witness: accepting u2 twice on `dbJ` is the same as accepting once. -/
theorem accept_idempotent_witness :
    dbJ.challenges = [chalOther] ++ chalW :: [] ∧
    (∀ c ∈ [chalOther], c.id ≠ 2) ∧
    (∀ c ∈ ([] : List Challenge), c.id ≠ 2) ∧
    chalW.id = 2 ∧
    chalW.participants = [p1W] ++ pW :: [p3W] ∧
    (∀ q ∈ [p1W], q.userId ≠ "u2") ∧
    pW.userId = "u2" ∧
    ((acceptChallenge dbJ 2 "u2").status = 200 ∧
     acceptChallenge (acceptChallenge dbJ 2 "u2").db 2 "u2" =
       { status := 200, db := (acceptChallenge dbJ 2 "u2").db }) :=
  ⟨by decide, by decide, by decide, by decide, by decide, by decide, by decide,
   accept_idempotent dbJ 2 "u2" [chalOther] [] chalW [p1W] [p3W] pW
     (by decide) (by decide) (by decide) (by decide) (by decide) (by decide)
     (by decide)⟩

/-! ### Helper lemmas on the create path -/

/-- `insertMany` saves as many records as it was given drafts. -/
theorem assignIds_length (k : Nat) (ds : List NotifDraft) :
    (assignIds k ds).length = ds.length := by
  induction ds generalizing k with
  | nil => rfl
  | cons d t ih => simp [assignIds, ih]

/-- Assigning server ids keeps each record's recipient. -/
theorem assignIds_map_userId (k : Nat) (ds : List NotifDraft) :
    (assignIds k ds).map Notification.userId = ds.map NotifDraft.userId := by
  induction ds generalizing k with
  | nil => rfl
  | cons d t ih => simp [assignIds, ih]

/-- Every record `insertMany` saves carries the fields of one of the drafts. -/
theorem mem_assignIds (k : Nat) (ds : List NotifDraft) (n : Notification)
    (hn : n ∈ assignIds k ds) :
    ∃ d ∈ ds, n.userId = d.userId ∧ n.type = d.type ∧ n.title = d.title ∧
      n.description = d.description ∧ n.data = d.data ∧ n.read = d.read ∧
      n.createdAt = d.createdAt := by
  induction ds generalizing k with
  | nil => cases hn
  | cons d t ih =>
    rcases List.mem_cons.mp hn with rfl | h
    · exact ⟨d, by simp, rfl, rfl, rfl, rfl, rfl, rfl, rfl⟩
    · obtain ⟨e, he, hprops⟩ := ih (k + 1) h
      exact ⟨e, by simp [he], hprops⟩

/-- Unfolding of a create whose community resolves. -/
theorem createChallenge_found (db : DB) (now : Nat) (ioSet : Bool)
    (us : Option (List (String × String))) (cid nm ds : String)
    (ex : List String) (st : Stake) (community : Community)
    (hfind : findCommunityById db cid = some community) :
    createChallenge db now ioSet us cid nm ds ex st =
      { status := 200,
        db := { db with
          challenges := db.challenges ++ [newChallenge db cid nm ds ex st],
          notifications :=
            db.notifications ++ createdRecords db now cid nm ds st community,
          nextId := db.nextId + 1 + community.members.length },
        pushes := createdPushes ioSet us
          (createdRecords db now cid nm ds st community),
        trace := (createdRecords db now cid nm ds st community).map
            Event.persistRec ++
          (createdPushes ioSet us
            (createdRecords db now cid nm ds st community)).map
            (fun p => Event.pushRec p.1 p.2),
        body := some (newChallenge db cid nm ds ex st) } := by
  simp only [createChallenge, insertMany, findCommunityById_update, hfind,
    newChallenge, createdRecords, createdPushes, List.length_map]

/-! ### C8, C10: create partial application and uninitialized socket refs -/

/-- C8: create builds a challenge with an empty roster and saves it before
resolving the community's member list; when the community is absent it answers
HTTP 404 while the already-saved challenge stays stored, with no notification
persisted and no push emitted — create is not atomic across the challenge
write and the dispatch. -/
theorem create_not_atomic (db : DB) (now : Nat) (ioSet : Bool)
    (us : Option (List (String × String))) (cid nm ds : String)
    (ex : List String) (st : Stake)
    (habs : findCommunityById db cid = none) :
    createChallenge db now ioSet us cid nm ds ex st =
      { status := 404,
        db := { db with
          challenges := db.challenges ++ [newChallenge db cid nm ds ex st],
          nextId := db.nextId + 1 },
        pushes := [], trace := [], body := none } := by
  simp only [createChallenge, findCommunityById_update, habs, newChallenge]

/-- C8 witness: creating against an unknown community id on `dbW` answers 404
and still stores the empty-roster challenge. -/
theorem create_not_atomic_witness :
    findCommunityById dbW "nope" = none ∧
    createChallenge dbW 5 true (some regW) "nope" "nm" "dsc" ["situps"] ⟨10⟩ =
      { status := 404,
        db := { dbW with
          challenges := dbW.challenges ++ [newChallenge dbW "nope" "nm" "dsc" ["situps"] ⟨10⟩],
          nextId := dbW.nextId + 1 },
        pushes := [], trace := [], body := none } :=
  ⟨by decide,
   create_not_atomic dbW 5 true (some regW) "nope" "nm" "dsc" ["situps"] ⟨10⟩
     (by decide)⟩

/-- C10: if the router was never initialized with both socket references
(`io` unset or `userSockets` unset), create still saves the challenge and one
notification record per community member and answers HTTP 200, while emitting
zero live pushes. -/
theorem create_uninitialized_router_no_pushes (db : DB) (now : Nat)
    (ioSet : Bool) (us : Option (List (String × String))) (cid nm ds : String)
    (ex : List String) (st : Stake) (community : Community)
    (hfind : findCommunityById db cid = some community)
    (hunset : ioSet = false ∨ us = none) :
    (createChallenge db now ioSet us cid nm ds ex st).status = 200 ∧
    (createChallenge db now ioSet us cid nm ds ex st).db.challenges =
      db.challenges ++ [newChallenge db cid nm ds ex st] ∧
    (createChallenge db now ioSet us cid nm ds ex st).db.notifications =
      db.notifications ++ createdRecords db now cid nm ds st community ∧
    (createdRecords db now cid nm ds st community).length =
      community.members.length ∧
    (createChallenge db now ioSet us cid nm ds ex st).pushes = [] := by
  rw [createChallenge_found db now ioSet us cid nm ds ex st community hfind]
  refine ⟨rfl, rfl, rfl, ?_, ?_⟩
  · rw [createdRecords, assignIds_length, List.length_map, List.length_map]
  · rcases hunset with h | h <;> simp [createdPushes, h]

/-- C10 witness: create on `dbW` with `userSockets` unset persists both
records, answers 200 and pushes nothing. -/
theorem create_uninitialized_router_no_pushes_witness :
    findCommunityById dbW "c1" = some commW ∧
    ((createChallenge dbW 5 true none "c1" "nm" "dsc" [] ⟨10⟩).status = 200 ∧
     (createChallenge dbW 5 true none "c1" "nm" "dsc" [] ⟨10⟩).db.challenges =
       dbW.challenges ++ [newChallenge dbW "c1" "nm" "dsc" [] ⟨10⟩] ∧
     (createChallenge dbW 5 true none "c1" "nm" "dsc" [] ⟨10⟩).db.notifications =
       dbW.notifications ++ createdRecords dbW 5 "c1" "nm" "dsc" ⟨10⟩ commW ∧
     (createdRecords dbW 5 "c1" "nm" "dsc" ⟨10⟩ commW).length =
       commW.members.length ∧
     (createChallenge dbW 5 true none "c1" "nm" "dsc" [] ⟨10⟩).pushes = []) :=
  ⟨by decide,
   create_uninitialized_router_no_pushes dbW 5 true none "c1" "nm" "dsc" []
     ⟨10⟩ commW (by decide) (Or.inr rfl)⟩

/-- The recipients of the records a successful create persists are exactly
the community's member identities, in order. -/
theorem createdRecords_map_userId (db : DB) (now : Nat) (cid nm ds : String)
    (st : Stake) (community : Community) :
    (createdRecords db now cid nm ds st community).map Notification.userId =
      community.members.map (fun m => m.userId) := by
  rw [createdRecords, assignIds_map_userId, List.map_map]
  simp [mkDraft, Function.comp]

/-! ### C1: one persisted notification per community member -/

/-- C1: a create on a community with N members persists exactly N notification
records in one batch append — one per member identity, including the creator —
each with type challenge_invite, read false, and identical title, description
and data payload (challengeId, communityId, stakeAmount, challengeName,
challengeDescription); the recipients are exactly the member identities, hence
pairwise distinct when the member list is. -/
theorem create_one_notification_per_member (db : DB) (now : Nat) (ioSet : Bool)
    (us : Option (List (String × String))) (cid nm ds : String)
    (ex : List String) (st : Stake) (community : Community)
    (hfind : findCommunityById db cid = some community)
    (hnodup : (community.members.map (fun m => m.userId)).Nodup) :
    (createChallenge db now ioSet us cid nm ds ex st).db.notifications =
      db.notifications ++ createdRecords db now cid nm ds st community ∧
    (createdRecords db now cid nm ds st community).length =
      community.members.length ∧
    (createdRecords db now cid nm ds st community).map Notification.userId =
      community.members.map (fun m => m.userId) ∧
    ((createdRecords db now cid nm ds st community).map Notification.userId).Nodup ∧
    ∀ n ∈ createdRecords db now cid nm ds st community,
      n.type = "challenge_invite" ∧ n.read = false ∧
      n.title = "New Challenge: " ++ nm ∧
      n.description = "You\x27ve been invited to join \x22" ++ nm ++ "\x22 challenge" ∧
      n.data = { challengeId := db.nextId, communityId := cid,
                 stakeAmount := st.amount, challengeName := nm,
                 challengeDescription := ds } := by
  refine ⟨?_, ?_, ?_, ?_, ?_⟩
  · rw [createChallenge_found db now ioSet us cid nm ds ex st community hfind]
  · rw [createdRecords, assignIds_length, List.length_map, List.length_map]
  · exact createdRecords_map_userId db now cid nm ds st community
  · rw [createdRecords_map_userId db now cid nm ds st community]
    exact hnodup
  · intro n hn
    rw [createdRecords] at hn
    obtain ⟨d, hd, hu, hty, hti, hde, hda, hre, hcr⟩ := mem_assignIds _ _ n hn
    obtain ⟨uid, huid, rfl⟩ := List.mem_map.mp hd
    exact ⟨hty, hre, hti, hde, hda⟩

/-- C1 witness: on the two-member community `commW`, create persists exactly
the two invite records. -/
theorem create_one_notification_per_member_witness :
    findCommunityById dbW "c1" = some commW ∧
    (commW.members.map (fun m => m.userId)).Nodup ∧
    ((createChallenge dbW 5 true (some regW) "c1" "nm" "dsc" [] ⟨10⟩).db.notifications =
       dbW.notifications ++ createdRecords dbW 5 "c1" "nm" "dsc" ⟨10⟩ commW ∧
     (createdRecords dbW 5 "c1" "nm" "dsc" ⟨10⟩ commW).length =
       commW.members.length ∧
     (createdRecords dbW 5 "c1" "nm" "dsc" ⟨10⟩ commW).map Notification.userId =
       commW.members.map (fun m => m.userId) ∧
     ((createdRecords dbW 5 "c1" "nm" "dsc" ⟨10⟩ commW).map Notification.userId).Nodup ∧
     ∀ n ∈ createdRecords dbW 5 "c1" "nm" "dsc" ⟨10⟩ commW,
       n.type = "challenge_invite" ∧ n.read = false ∧
       n.title = "New Challenge: " ++ "nm" ∧
       n.description = "You\x27ve been invited to join \x22" ++ "nm" ++ "\x22 challenge" ∧
       n.data = { challengeId := dbW.nextId, communityId := "c1",
                  stakeAmount := Stake.amount ⟨10⟩, challengeName := "nm",
                  challengeDescription := "dsc" }) :=
  ⟨by decide, by decide,
   create_one_notification_per_member dbW 5 true (some regW) "c1" "nm" "dsc"
     [] ⟨10⟩ commW (by decide) (by decide)⟩

/-! ### Helper lemmas on pushes and the effect trace -/

/-- No push of a batch targets a recipient no record of the batch names. -/
theorem pushes_filter_none (reg : List (String × String))
    (t : List Notification) (u : String)
    (h : ∀ m ∈ t, m.userId ≠ u) :
    (t.filterMap (fun m =>
        match lookupSocket reg m.userId with
        | some socketId => some (socketId, m)
        | none => none)).filter (fun p => p.2.userId == u) = [] := by
  induction t with
  | nil => rfl
  | cons a t ih =>
    have ha : a.userId ≠ u := h a (by simp)
    have ht := ih (fun m hm => h m (by simp [hm]))
    cases hl : lookupSocket reg a.userId with
    | none => simpa [List.filterMap_cons, hl] using ht
    | some s => simpa [List.filterMap_cons, hl, List.filter_cons, ha] using ht

/-- Among a batch with pairwise-distinct recipients, the pushes that target
one given recipient are exactly the single push to the registered handle, or
none when the recipient is not registered. -/
theorem pushes_filter_registered (reg : List (String × String))
    (l : List Notification) (u : String) (n : Notification)
    (hnodup : (l.map Notification.userId).Nodup)
    (hmem : n ∈ l) (hu : n.userId = u) :
    (l.filterMap (fun m =>
        match lookupSocket reg m.userId with
        | some socketId => some (socketId, m)
        | none => none)).filter (fun p => p.2.userId == u) =
      (match lookupSocket reg u with
       | some s => [(s, n)]
       | none => []) := by
  subst hu
  induction l with
  | nil => cases hmem
  | cons a t ih =>
    rw [List.map_cons] at hnodup
    have hnd := List.nodup_cons.mp hnodup
    rcases List.mem_cons.mp hmem with rfl | hmemt
    · have hnotin : ∀ m ∈ t, m.userId ≠ n.userId := by
        intro m hm hmu
        exact hnd.1 (hmu ▸ List.mem_map_of_mem Notification.userId hm)
      have ht := pushes_filter_none reg t n.userId hnotin
      cases hl : lookupSocket reg n.userId with
      | none => simpa [List.filterMap_cons, hl] using ht
      | some s => simpa [List.filterMap_cons, hl, List.filter_cons] using ht
    · have ha : a.userId ≠ n.userId := by
        intro hmu
        exact hnd.1 (hmu ▸ List.mem_map_of_mem Notification.userId hmemt)
      have ht := ih hnd.2 hmemt
      cases hl : lookupSocket reg a.userId with
      | none => simpa [List.filterMap_cons, hl] using ht
      | some s => simpa [List.filterMap_cons, hl, List.filter_cons, ha] using ht

/-- Every push of a dispatch refers to one of the batch's persisted records. -/
theorem createdPushes_mem (ioSet : Bool) (us : Option (List (String × String)))
    (saved : List Notification) :
    ∀ p ∈ createdPushes ioSet us saved, p.2 ∈ saved := by
  intro p hp
  rw [createdPushes] at hp
  by_cases h : (ioSet && us.isSome) = true
  · rw [if_pos h] at hp
    obtain ⟨m, hm, hfm⟩ := List.mem_filterMap.mp hp
    cases hl : lookupSocket (us.getD []) m.userId with
    | none => simp [hl] at hfm
    | some s =>
      simp [hl] at hfm
      rw [← hfm]
      exact hm
  · rw [if_neg h] at hp
    cases hp

/-- In a trace of persist events followed by push events over persisted
records, every push is preceded by the persist of the pushed record. -/
theorem trace_push_after_persist (saved : List Notification)
    (pushes : List (String × Notification))
    (hsub : ∀ p ∈ pushes, p.2 ∈ saved) (j : Nat) (s : String) (n : Notification)
    (hj : (saved.map Event.persistRec ++
        pushes.map (fun p => Event.pushRec p.1 p.2)).get? j =
      some (Event.pushRec s n)) :
    ∃ i, i < j ∧
      (saved.map Event.persistRec ++
        pushes.map (fun p => Event.pushRec p.1 p.2)).get? i =
        some (Event.persistRec n) := by
  have hlen : saved.length ≤ j := by
    by_contra hlt
    push_neg at hlt
    rw [List.get?_append (by simpa using hlt), List.get?_map] at hj
    cases hg : saved.get? j with
    | none => rw [hg] at hj; cases hj
    | some m => rw [hg] at hj; cases hj
  have hr := hj
  rw [List.get?_append_right (by simpa using hlen), List.get?_map] at hr
  have hnmem : n ∈ saved := by
    cases hg : pushes.get? (j - (saved.map Event.persistRec).length) with
    | none => rw [hg] at hr; cases hr
    | some p =>
      rw [hg] at hr
      have hp : Event.pushRec p.1 p.2 = Event.pushRec s n := by
        exact Option.some.inj hr
      have hp2 : p.2 = n := by cases hp; rfl
      exact hp2 ▸ hsub p (List.get?_mem hg)
  obtain ⟨i, hgi⟩ := List.mem_iff_get?.mp hnmem
  have hi : i < saved.length := by
    by_contra hge
    push_neg at hge
    rw [List.get?_eq_none.mpr hge] at hgi
    cases hgi
  refine ⟨i, lt_of_lt_of_le hi hlen, ?_⟩
  rw [List.get?_append (by simpa using hi), List.get?_map, hgi]
  rfl

/-! ### C2: push exactly when registered; C3: persisted before pushed -/

/-- C2: for each record persisted by a create dispatched with both socket
references set: if the recipient's handle is in the registry at dispatch time,
exactly one new_notification push targets that recipient, to that exact
handle, carrying that persisted record (same server-assigned id); if the
recipient is not registered, zero pushes target them while their persisted
record still exists in the store. -/
theorem create_push_exactly_when_registered (db : DB) (now : Nat)
    (reg : List (String × String)) (cid nm ds : String) (ex : List String)
    (st : Stake) (community : Community)
    (hfind : findCommunityById db cid = some community)
    (hnodup : (community.members.map (fun m => m.userId)).Nodup) :
    ∀ n ∈ createdRecords db now cid nm ds st community,
      n ∈ (createChallenge db now true (some reg) cid nm ds ex st).db.notifications ∧
      (∀ s, lookupSocket reg n.userId = some s →
        (createChallenge db now true (some reg) cid nm ds ex st).pushes.filter
          (fun p => p.2.userId == n.userId) = [(s, n)]) ∧
      (lookupSocket reg n.userId = none →
        (createChallenge db now true (some reg) cid nm ds ex st).pushes.filter
          (fun p => p.2.userId == n.userId) = []) := by
  have hres := createChallenge_found db now true (some reg) cid nm ds ex st
    community hfind
  have hno : (createChallenge db now true (some reg) cid nm ds ex st).db.notifications =
      db.notifications ++ createdRecords db now cid nm ds st community := by
    rw [hres]
  have hpu : (createChallenge db now true (some reg) cid nm ds ex st).pushes =
      (createdRecords db now cid nm ds st community).filterMap (fun m =>
        match lookupSocket reg m.userId with
        | some socketId => some (socketId, m)
        | none => none) := by
    rw [hres]
    simp [createdPushes]
  have hnodup' :
      ((createdRecords db now cid nm ds st community).map Notification.userId).Nodup := by
    rw [createdRecords_map_userId]
    exact hnodup
  intro n hn
  have hkey := pushes_filter_registered reg
    (createdRecords db now cid nm ds st community) n.userId n hnodup' hn rfl
  refine ⟨by rw [hno]; exact List.mem_append_right _ hn, ?_, ?_⟩
  · intro s hs
    rw [hpu, hkey, hs]
  · intro hnone
    rw [hpu, hkey, hnone]

/-- C2 witness: on `commW` with only u2 registered in `regW`, each persisted
record's pushes are as the theorem states. -/
theorem create_push_exactly_when_registered_witness :
    findCommunityById dbW "c1" = some commW ∧
    (commW.members.map (fun m => m.userId)).Nodup ∧
    ∀ n ∈ createdRecords dbW 5 "c1" "nm" "dsc" ⟨10⟩ commW,
      n ∈ (createChallenge dbW 5 true (some regW) "c1" "nm" "dsc" [] ⟨10⟩).db.notifications ∧
      (∀ s, lookupSocket regW n.userId = some s →
        (createChallenge dbW 5 true (some regW) "c1" "nm" "dsc" [] ⟨10⟩).pushes.filter
          (fun p => p.2.userId == n.userId) = [(s, n)]) ∧
      (lookupSocket regW n.userId = none →
        (createChallenge dbW 5 true (some regW) "c1" "nm" "dsc" [] ⟨10⟩).pushes.filter
          (fun p => p.2.userId == n.userId) = []) :=
  ⟨by decide, by decide,
   create_push_exactly_when_registered dbW 5 regW "c1" "nm" "dsc" [] ⟨10⟩
     commW (by decide) (by decide)⟩

/-- C3: the bulk insert persists every recipient's record before any live push
is attempted — in the effect trace every push event is strictly preceded by
the persist event of the same record, every emitted push carries a record
already present in the store, and each record of the batch is stored no matter
what the registry holds. -/
theorem create_persist_before_push (db : DB) (now : Nat) (ioSet : Bool)
    (us : Option (List (String × String))) (cid nm ds : String)
    (ex : List String) (st : Stake) (community : Community)
    (hfind : findCommunityById db cid = some community) :
    (∀ p ∈ (createChallenge db now ioSet us cid nm ds ex st).pushes,
       p.2 ∈ (createChallenge db now ioSet us cid nm ds ex st).db.notifications) ∧
    (∀ n ∈ createdRecords db now cid nm ds st community,
       n ∈ (createChallenge db now ioSet us cid nm ds ex st).db.notifications) ∧
    (∀ j s n,
      (createChallenge db now ioSet us cid nm ds ex st).trace.get? j =
        some (Event.pushRec s n) →
      ∃ i, i < j ∧
        (createChallenge db now ioSet us cid nm ds ex st).trace.get? i =
          some (Event.persistRec n)) := by
  have hres := createChallenge_found db now ioSet us cid nm ds ex st community hfind
  have hpu : (createChallenge db now ioSet us cid nm ds ex st).pushes =
      createdPushes ioSet us (createdRecords db now cid nm ds st community) := by
    rw [hres]
  have hno : (createChallenge db now ioSet us cid nm ds ex st).db.notifications =
      db.notifications ++ createdRecords db now cid nm ds st community := by
    rw [hres]
  have htr : (createChallenge db now ioSet us cid nm ds ex st).trace =
      (createdRecords db now cid nm ds st community).map Event.persistRec ++
        (createdPushes ioSet us (createdRecords db now cid nm ds st community)).map
          (fun p => Event.pushRec p.1 p.2) := by
    rw [hres]
  refine ⟨?_, ?_, ?_⟩
  · intro p hp
    rw [hpu] at hp
    rw [hno]
    exact List.mem_append_right _ (createdPushes_mem ioSet us _ p hp)
  · intro n hn
    rw [hno]
    exact List.mem_append_right _ hn
  · intro j s n hj
    rw [htr] at hj ⊢
    exact trace_push_after_persist _ _ (createdPushes_mem ioSet us _) j s n hj

/-- C3 witness at the concrete store `dbW` with registry `regW`. -/
theorem create_persist_before_push_witness :
    findCommunityById dbW "c1" = some commW ∧
    ((∀ p ∈ (createChallenge dbW 5 true (some regW) "c1" "nm" "dsc" [] ⟨10⟩).pushes,
        p.2 ∈ (createChallenge dbW 5 true (some regW) "c1" "nm" "dsc" [] ⟨10⟩).db.notifications) ∧
     (∀ n ∈ createdRecords dbW 5 "c1" "nm" "dsc" ⟨10⟩ commW,
        n ∈ (createChallenge dbW 5 true (some regW) "c1" "nm" "dsc" [] ⟨10⟩).db.notifications) ∧
     (∀ j s n,
       (createChallenge dbW 5 true (some regW) "c1" "nm" "dsc" [] ⟨10⟩).trace.get? j =
         some (Event.pushRec s n) →
       ∃ i, i < j ∧
         (createChallenge dbW 5 true (some regW) "c1" "nm" "dsc" [] ⟨10⟩).trace.get? i =
           some (Event.persistRec n))) :=
  ⟨by decide,
   create_persist_before_push dbW 5 true (some regW) "c1" "nm" "dsc" [] ⟨10⟩
     commW (by decide)⟩

end StakeFit
